import Mathlib

/-!
Shallow embedding of the ed-daemon deployment manager: the docker protocol
client (src/docker_client.rs), the reconciliation manager (src/manager.rs)
and the lifecycle sequencing of the request handlers (src/api.rs).

The container engine is modelled as an oracle (`Engine`) giving, per
endpoint, either a transport failure (`Except.error ()`) or the structured
response the source would obtain after its serde parse.  Client operations
additionally return the list of engine requests they attempted (`Req`),
so that statements of the form "no tag request is issued" can be made.
Handler panics coming from `.unwrap()` in src/api.rs are modelled by the
`HRes.panicked` constructor.
-/

deriving instance DecidableEq for Except

namespace Ed

/-- Mirrors manager.rs `State` (Running, Stopped). -/
inductive MState where
  | Running
  | Stopped
deriving DecidableEq, Repr

/-- Mirrors manager.rs `State::to_string`. -/
def MState.to_string : MState → String
  | .Running => "running"
  | .Stopped => "stopped"

/-- Mirrors manager.rs `Deployment`.  `Default` in the source gives empty
strings for id, name, image and health, and `Stopped` for state. -/
structure Deployment where
  id : String
  name : String
  state : MState
  image : String
  health : String
deriving DecidableEq, Repr

/-- Rust `str::starts_with`, computed on the character lists. -/
def strStartsWith (s pre : String) : Bool :=
  pre.toList.isPrefixOf s.toList

/-- Split a character list on a separator character; models Rust `split` for
a one-character pattern, as used on ":" and on newlines in the source. -/
def splitOnChar (c : Char) : List Char → List (List Char)
  | [] => [[]]
  | x :: xs =>
    if x = c then [] :: splitOnChar c xs
    else
      match splitOnChar c xs with
      | [] => [[x]]
      | y :: ys => (x :: y) :: ys

/-- Rust `str::trim`, computed on the character lists. -/
def strTrim (s : String) : String :=
  String.mk (((s.toList.dropWhile Char.isWhitespace).reverse.dropWhile
    Char.isWhitespace).reverse)

/-- Mirrors docker_structs.rs `RunningContainer`. -/
structure RunningContainer where
  id : String
  names : List String
  image : String
  state : String
deriving DecidableEq, Repr

/-- Mirrors docker_structs.rs `InspectContainerStateHealth`. -/
structure InspectContainerStateHealth where
  status : String
deriving DecidableEq, Repr

/-- Mirrors docker_structs.rs `InspectContainerState`. -/
structure InspectContainerState where
  health : Option InspectContainerStateHealth
  running : Bool
deriving DecidableEq, Repr

/-- Mirrors docker_structs.rs `InspectContainer`. -/
structure InspectContainer where
  state : InspectContainerState
deriving DecidableEq, Repr

/-- Mirrors config_file.rs `Deployment` (the desired-deployment entry). -/
structure DesiredDeployment where
  name : String
  args : Option (List String)
deriving DecidableEq, Repr

/-- The part of config_file.rs `Config` the manager and handlers read. -/
structure Config where
  container_pfx : String
  deployments : List DesiredDeployment

/-- One attempted engine request, recorded for trace statements. -/
inductive Req where
  | listContainers
  | inspect (id : String)
  | load (filename : String)
  | tag (image tag repo : String)
  | prune
  | stopReq (id : String) (body : String)
  | removeReq (id : String)
deriving DecidableEq, Repr

/-- The engine oracle: per endpoint, a transport failure or the structured
response the source code would obtain after its serde parse.  `startById` is
the one operation whose client-side body is not under src. -/
structure Engine where
  containers : Except Unit (List RunningContainer)
  inspectStatus : String → Except Unit Nat
  inspectBody : String → InspectContainer
  loadResp : String → Except Unit String
  tagStatus : String → String → String → Except Unit Nat
  pruneResp : Except Unit Nat
  stopStatus : String → Except Unit Nat
  removeStatus : String → Except Unit Nat
  launch : String → String → List String → Except Unit Unit
  /-- Modelled from the spec: the engine-side start call used by the start
  endpoint.  `DockerClient::start` is not present under src (only its caller
  in api.rs is); per the spec the call either succeeds or fails, and its
  failure is mapped to an internal failure by the caller. -/
  startById : String → Except Unit Unit

/-- Mirrors docker_client.rs `inspect_running_container`: a GET of the
container json; any non-200 status (or transport failure) is an error. -/
def inspectRC (e : Engine) (id : String) : Except Unit InspectContainer × List Req :=
  (match e.inspectStatus id with
   | .error _ => .error ()
   | .ok s => if s ≠ 200 then .error () else .ok (e.inspectBody id),
   [Req.inspect id])

/-- The stop request body sent by docker_client.rs: a SIGINT with a bounded
grace period before forced termination. -/
def stopBody : String := "\x7b\"signal\":\"SIGINT\",\"kill\":5\x7d"

/-- Mirrors docker_client.rs `stop_running_container`: inspect first; if not
running return Ok with no stop request; otherwise POST the stop and accept
204 or 304 as success. -/
def stop_running_container (e : Engine) (id : String) : Except Unit Unit × List Req :=
  match (inspectRC e id).1 with
  | .error _ => (.error (), [Req.inspect id])
  | .ok insp =>
    if insp.state.running = false then
      (.ok (), [Req.inspect id])
    else
      match e.stopStatus id with
      | .error _ => (.error (), [Req.inspect id, Req.stopReq id stopBody])
      | .ok s =>
        if s ≠ 204 ∧ s ≠ 304 then (.error (), [Req.inspect id, Req.stopReq id stopBody])
        else (.ok (), [Req.inspect id, Req.stopReq id stopBody])

/-- Mirrors docker_client.rs `remove_stopped_container`: DELETE, require 204. -/
def remove_stopped_container (e : Engine) (id : String) : Except Unit Unit × List Req :=
  match e.removeStatus id with
  | .error _ => (.error (), [Req.removeReq id])
  | .ok s => (if s ≠ 204 then .error () else .ok (), [Req.removeReq id])

/-- Rust `str::lines`: split on newline, the final line ending is optional. -/
def rustLines (s : String) : List String :=
  match (splitOnChar (Char.ofNat 10) s.toList).reverse with
  | [] :: rest => rest.reverse.map String.mk
  | parts => parts.reverse.map String.mk

/-- The loop of docker_client.rs `load_container_image` that scans the load
response stream: each trimmed line carrying the "Loaded image: " marker
overwrites the previous candidate, so the last such line wins. -/
def lastLoadedImage (stream : String) : Option String :=
  (rustLines stream).foldl
    (fun acc line =>
      if strStartsWith (strTrim line) "Loaded image: " then
        some (String.mk ((strTrim line).toList.drop 14))
      else acc)
    none

/-- Mirrors docker_client.rs `load_container_image`: stream the archive to
the load endpoint, extract the loaded image reference from the response
stream, retag it (require 201), then prune.  The prune status is ignored but
a prune transport failure propagates. -/
def load_container_image (e : Engine) (filename new_name : String) :
    Except Unit Unit × List Req :=
  match e.loadResp filename with
  | .error _ => (.error (), [Req.load filename])
  | .ok stream =>
    match lastLoadedImage stream with
    | none => (.error (), [Req.load filename])
    | some img =>
      match (splitOnChar (Char.ofNat 58) new_name.toList).map String.mk with
      | [repo, tag] =>
        (match e.tagStatus img tag repo with
         | .error _ => (.error (), [Req.load filename, Req.tag img tag repo])
         | .ok s =>
           if s ≠ 201 then (.error (), [Req.load filename, Req.tag img tag repo])
           else
             match e.pruneResp with
             | .error _ =>
               (.error (), [Req.load filename, Req.tag img tag repo, Req.prune])
             | .ok _ =>
               (.ok (), [Req.load filename, Req.tag img tag repo, Req.prune]))
      | _ => (.error (), [Req.load filename])

/-- The empty deployment record built by manager.rs for a desired deployment
with no matching container (health is the "unknown" sentinel there). -/
def emptyDeployment (n : String) : Deployment :=
  { id := "", name := n, state := .Stopped, image := "", health := "unknown" }

/-- Mirrors the filter in `Manager::new`: keep containers having at least one
name carrying the configured global name marker, paired with those names. -/
def prefixedContainers (pfx : String) (rcs : List RunningContainer) :
    List (RunningContainer × List String) :=
  rcs.filterMap (fun r =>
    let matched := r.names.filter (fun n => strStartsWith n pfx)
    if matched.isEmpty then none else some (r, matched))

/-- Mirrors the first-match-then-remove step of `Manager::new`: find the
first candidate whose matched names contain `cname`, return it together with
the candidate list with that entry removed. -/
def findConsume (cname : String) :
    List (RunningContainer × List String) →
    Option ((RunningContainer × List String) × List (RunningContainer × List String))
  | [] => none
  | p :: rest =>
    if p.2.contains cname then some (p, rest)
    else
      match findConsume cname rest with
      | some (q, rest2) => some (q, p :: rest2)
      | none => none

/-- The matching loop of `Manager::new`: one slot per desired deployment, in
order; a matched container is consumed and inspected (inspect failure aborts
the whole build); an unmatched deployment leaves `none` for the later fill. -/
def buildSlots (e : Engine) (pfx : String) :
    List DesiredDeployment → List (RunningContainer × List String) →
    Except Unit (List (Option Deployment))
  | [], _ => .ok []
  | d :: rest, pcs =>
    match findConsume (pfx ++ d.name) pcs with
    | none =>
      match buildSlots e pfx rest pcs with
      | .error u => .error u
      | .ok slots => .ok (none :: slots)
    | some (p, pcs2) =>
      match (inspectRC e p.1.id).1 with
      | .error u => .error u
      | .ok insp =>
        match buildSlots e pfx rest pcs2 with
        | .error u => .error u
        | .ok slots =>
          .ok (some { id := p.1.id,
                      name := d.name,
                      state := if p.1.state == "running" then MState.Running
                               else MState.Stopped,
                      image := p.1.image,
                      health := match insp.state.health with
                                | some h => h.status
                                | none => "unknown" } :: slots)

/-- The final fill pass of `Manager::new`: every slot left `none` becomes the
empty deployment record for the desired deployment at the same index. -/
def fillSlots (ds : List DesiredDeployment) (slots : List (Option Deployment)) :
    List Deployment :=
  (ds.zip slots).map (fun p => p.2.getD (emptyDeployment p.1.name))

/-- Mirrors manager.rs `Manager::new`: list all containers, filter to those
carrying the configured name marker, bind each desired deployment to its
first exact-name match (consuming it), fill the rest with empty records. -/
def Manager.new (e : Engine) (c : Config) : Except Unit (List Deployment) :=
  match e.containers with
  | .error u => .error u
  | .ok rcs =>
    match buildSlots e c.container_pfx c.deployments
        (prefixedContainers c.container_pfx rcs) with
    | .error u => .error u
    | .ok slots => .ok (fillSlots c.deployments slots)

/-- The incremental loop of `Manager::update_deployments`: inspect each
entry by id; on success refresh health only; on failure clear id and image
and set the state to Stopped. -/
def incrementalPass (e : Engine) (ds : List Deployment) : List Deployment :=
  ds.map (fun d =>
    match (inspectRC e d.id).1 with
    | .ok i =>
      { d with health := match i.state.health with
                         | some h => h.status
                         | none => "unknown" }
    | .error _ => { d with id := "", state := .Stopped, image := "" })

/-- Mirrors manager.rs `Manager::update_deployments`: run the incremental
pass (mutating the table in place), then replace the whole table with a
fresh `Manager::new` build; a build failure propagates, leaving the table as
the incremental pass left it. -/
def update_deployments (e : Engine) (c : Config) (ds : List Deployment) :
    Except Unit Unit × List Deployment :=
  let ds1 := incrementalPass e ds
  match Manager.new e c with
  | .error u => (.error u, ds1)
  | .ok full => (.ok (), full)

/-- Outcome of a request handler: a panic (an `.unwrap()` of an Err in
api.rs), an Err(Status), or an Ok(status, value). -/
inductive HRes (α : Type) where
  | panicked
  | err (s : Nat)
  | ok (s : Nat) (a : α)
deriving DecidableEq, Repr

/-- Mirrors api.rs `LoadResult`. -/
structure LoadResult where
  outcome : String
  state : String
  health : String
deriving DecidableEq, Repr

/-- Mirrors api.rs `Deployments` (the serialized record). -/
structure Deployments where
  name : String
  state : String
  image : String
  health : String
deriving DecidableEq, Repr

/-- Rust `str::trim_start_matches("/")`: drop every leading slash. -/
def trimStartSlash (s : String) : String :=
  String.mk (s.toList.dropWhile (fun ch => ch = '/'))

/-- Mirrors api.rs `stop` (the internal lifecycle step): find the first
entry by name (404 if none), attempt the engine stop; a failure mapped to
500 is returned before the state mutation only when `fail_hard` is set;
otherwise the entry state is set to Stopped. -/
def stopA (e : Engine) (name : String) (fail_hard : Bool) :
    List Deployment → Except Nat Unit × List Deployment
  | [] => (.error 404, [])
  | d :: rest =>
    if d.name == name then
      match (stop_running_container e d.id).1, fail_hard with
      | .error _, true => (.error 500, d :: rest)
      | _, _ => (.ok (), { d with state := MState.Stopped } :: rest)
    else
      match stopA e name fail_hard rest with
      | (r, rest2) => (r, d :: rest2)

/-- Mirrors api.rs `remove` (the internal lifecycle step): find the first
entry by name (404 if none), attempt the engine remove; failure propagates
only when `fail_hard`; otherwise the record is reset to `Default` with the
name put back (so health becomes the empty string, the String default). -/
def removeA (e : Engine) (name : String) (fail_hard : Bool) :
    List Deployment → Except Nat Unit × List Deployment
  | [] => (.error 404, [])
  | d :: rest =>
    if d.name == name then
      match (remove_stopped_container e d.id).1, fail_hard with
      | .error _, true => (.error 500, d :: rest)
      | _, _ =>
        (.ok (), { id := "", name := name, state := MState.Stopped,
                   image := "", health := "" } :: rest)
    else
      match removeA e name fail_hard rest with
      | (r, rest2) => (r, d :: rest2)

/-- Mirrors api.rs `start_container`: lenient stop, lenient remove, look up
the launch arguments (404 if the name is not configured), launch via the
cli, refresh, then require the named entry to be Running (500 otherwise);
the post-refresh `.find(..).unwrap()` is a panic when the name is absent. -/
def start_container (e : Engine) (c : Config) (name : String)
    (ds : List Deployment) : HRes LoadResult × List Deployment :=
  match stopA e name false ds with
  | (.error s, ds1) => (.err s, ds1)
  | (.ok _, ds1) =>
    match removeA e name false ds1 with
    | (.error s, ds2) => (.err s, ds2)
    | (.ok _, ds2) =>
      match c.deployments.find? (fun d => d.name == name) with
      | none => (.err 404, ds2)
      | some dc =>
        let args := match dc.args with
                    | some a => a
                    | none => []
        match e.launch (trimStartSlash c.container_pfx ++ name)
            (trimStartSlash c.container_pfx ++ name ++ ":latest") args with
        | .error _ => (.err 500, ds2)
        | .ok _ =>
          match update_deployments e c ds2 with
          | (.error _, ds3) => (.err 500, ds3)
          | (.ok _, ds3) =>
            match ds3.find? (fun d => d.name == name) with
            | none => (.panicked, ds3)
            | some d =>
              if d.state = MState.Running then
                (.ok 200 { outcome := "success",
                           state := d.state.to_string,
                           health := d.health }, ds3)
              else (.err 500, ds3)

/-- Mirrors api.rs `get_deployments`: refresh (error mapped to 500), then
serialize the whole table. -/
def get_deployments (e : Engine) (c : Config) (ds : List Deployment) :
    HRes (List Deployments) × List Deployment :=
  match update_deployments e c ds with
  | (.error _, ds1) => (.err 500, ds1)
  | (.ok _, ds1) =>
    (.ok 200 (ds1.map (fun d =>
      { name := d.name, state := d.state.to_string,
        image := d.image, health := d.health })), ds1)

/-- Mirrors api.rs `get_deployment`: refresh (error mapped to 500), then
find by name (404 if absent). -/
def get_deployment (e : Engine) (c : Config) (name : String)
    (ds : List Deployment) : HRes Deployments × List Deployment :=
  match update_deployments e c ds with
  | (.error _, ds1) => (.err 500, ds1)
  | (.ok _, ds1) =>
    match ds1.find? (fun d => d.name == name) with
    | some d =>
      (.ok 200 { name := d.name, state := d.state.to_string,
                 image := d.image, health := d.health }, ds1)
    | none => (.err 404, ds1)

/-- Mirrors api.rs `stop_deployment`: refresh with `.unwrap()` (a refresh
failure panics), then the strict internal stop. -/
def stop_deployment (e : Engine) (c : Config) (name : String)
    (ds : List Deployment) : HRes String × List Deployment :=
  match update_deployments e c ds with
  | (.error _, ds1) => (.panicked, ds1)
  | (.ok _, ds1) =>
    match stopA e name true ds1 with
    | (.error s, ds2) => (.err s, ds2)
    | (.ok _, ds2) => (.ok 200 "\x7b\x7d", ds2)

/-- Mirrors api.rs `delete_deployment`: refresh with `.unwrap()` (a refresh
failure panics), then the internal stop and remove, both called with
`fail_hard = false`. -/
def delete_deployment (e : Engine) (c : Config) (name : String)
    (ds : List Deployment) : HRes String × List Deployment :=
  match update_deployments e c ds with
  | (.error _, ds1) => (.panicked, ds1)
  | (.ok _, ds1) =>
    match stopA e name false ds1 with
    | (.error s, ds2) => (.err s, ds2)
    | (.ok _, ds2) =>
      match removeA e name false ds2 with
      | (.error s, ds3) => (.err s, ds3)
      | (.ok _, ds3) => (.ok 200 "\x7b\x7d", ds3)

/-- Mirrors api.rs `start_deployment`: refresh with `.unwrap()`, find by
name (404), return 200 if already Running, otherwise the engine start call
with its failure mapped to 500. -/
def start_deployment (e : Engine) (c : Config) (name : String)
    (ds : List Deployment) : HRes String × List Deployment :=
  match update_deployments e c ds with
  | (.error _, ds1) => (.panicked, ds1)
  | (.ok _, ds1) =>
    match ds1.find? (fun d => d.name == name) with
    | none => (.err 404, ds1)
    | some d =>
      if d.state = MState.Running then (.ok 200 "\x7b\x7d", ds1)
      else
        match e.startById d.id with
        | .error _ => (.err 500, ds1)
        | .ok _ => (.ok 200 "\x7b\x7d", ds1)

/-- Mirrors api.rs `load_file`: load and retag the uploaded archive with
`.unwrap()` (a load failure panics), then delegate to `start_container`. -/
def load_file (e : Engine) (c : Config) (name : String) (tmpPath : String)
    (ds : List Deployment) : HRes LoadResult × List Deployment :=
  match (load_container_image e tmpPath
      (trimStartSlash c.container_pfx ++ name ++ ":latest")).1 with
  | .error _ => (.panicked, ds)
  | .ok _ => start_container e c name ds

/-- Update the first entry carrying `name` with `f`; the normal form of the
find-then-mutate pattern of api.rs `stop` and `remove`. -/
def mutateFirst (name : String) (f : Deployment → Deployment) :
    List Deployment → List Deployment
  | [] => []
  | d :: rest =>
    if d.name == name then f d :: rest else d :: mutateFirst name f rest

theorem find?_name_cons_pos (n : String) (d : Deployment) (rest : List Deployment)
    (h : (d.name == n) = true) :
    (d :: rest).find? (fun x => x.name == n) = some d :=
  List.find?_cons_of_pos rest (show ((fun x : Deployment => x.name == n) d) = true from h)

theorem find?_name_cons_neg (n : String) (d : Deployment) (rest : List Deployment)
    (h : ¬(d.name == n) = true) :
    (d :: rest).find? (fun x => x.name == n) = rest.find? (fun x => x.name == n) :=
  List.find?_cons_of_neg rest (show ¬((fun x : Deployment => x.name == n) d) = true from h)

theorem mutateFirst_cons_pos (name : String) (f : Deployment → Deployment)
    (d : Deployment) (rest : List Deployment) (h : (d.name == name) = true) :
    mutateFirst name f (d :: rest) = f d :: rest := by
  simp [mutateFirst, h]

theorem mutateFirst_cons_neg (name : String) (f : Deployment → Deployment)
    (d : Deployment) (rest : List Deployment) (h : ¬(d.name == name) = true) :
    mutateFirst name f (d :: rest) = d :: mutateFirst name f rest := by
  simp [mutateFirst, h]

theorem stopA_eq (e : Engine) (name : String) (fh : Bool) (ds : List Deployment) :
    stopA e name fh ds =
      match ds.find? (fun x => x.name == name) with
      | none => (.error 404, ds)
      | some d =>
        match (stop_running_container e d.id).1, fh with
        | .error _, true => (.error 500, ds)
        | _, _ =>
          (.ok (), mutateFirst name (fun x => { x with state := MState.Stopped }) ds) := by
  induction ds with
  | nil => rfl
  | cons d rest ih =>
    by_cases h : (d.name == name) = true
    · rw [find?_name_cons_pos name d rest h, mutateFirst_cons_pos name _ d rest h]
      cases hs : (stop_running_container e d.id).1 <;> cases fh <;>
        simp [stopA, h, hs]
    · rw [find?_name_cons_neg name d rest h, mutateFirst_cons_neg name _ d rest h]
      have hstep : stopA e name fh (d :: rest) =
          ((stopA e name fh rest).1, d :: (stopA e name fh rest).2) := by
        simp [stopA, h]
      rw [hstep, ih]
      cases hf : rest.find? (fun x => x.name == name) with
      | none => simp
      | some dd =>
        cases hs : (stop_running_container e dd.id).1 <;> cases fh <;> simp [hs]

theorem removeA_eq (e : Engine) (name : String) (fh : Bool) (ds : List Deployment) :
    removeA e name fh ds =
      match ds.find? (fun x => x.name == name) with
      | none => (.error 404, ds)
      | some d =>
        match (remove_stopped_container e d.id).1, fh with
        | .error _, true => (.error 500, ds)
        | _, _ =>
          (.ok (), mutateFirst name
            (fun _ => { id := "", name := name, state := MState.Stopped,
                        image := "", health := "" }) ds) := by
  induction ds with
  | nil => rfl
  | cons d rest ih =>
    by_cases h : (d.name == name) = true
    · rw [find?_name_cons_pos name d rest h, mutateFirst_cons_pos name _ d rest h]
      cases hs : (remove_stopped_container e d.id).1 <;> cases fh <;>
        simp [removeA, h, hs]
    · rw [find?_name_cons_neg name d rest h, mutateFirst_cons_neg name _ d rest h]
      have hstep : removeA e name fh (d :: rest) =
          ((removeA e name fh rest).1, d :: (removeA e name fh rest).2) := by
        simp [removeA, h]
      rw [hstep, ih]
      cases hf : rest.find? (fun x => x.name == name) with
      | none => simp
      | some dd =>
        cases hs : (remove_stopped_container e dd.id).1 <;> cases fh <;> simp [hs]

theorem mutateFirst_names (name : String) (f : Deployment → Deployment)
    (hf : ∀ x : Deployment, (x.name == name) = true → (f x).name = x.name) :
    ∀ ds : List Deployment,
      (mutateFirst name f ds).map Deployment.name = ds.map Deployment.name := by
  intro ds
  induction ds with
  | nil => rfl
  | cons d rest ih =>
    by_cases h : (d.name == name) = true
    · rw [mutateFirst_cons_pos name _ d rest h]
      simp [hf d h]
    · rw [mutateFirst_cons_neg name _ d rest h]
      simp [ih]

theorem find?_mutateFirst (name : String) (f : Deployment → Deployment)
    (ds : List Deployment) (d : Deployment)
    (h : ds.find? (fun x => x.name == name) = some d)
    (hf : ((f d).name == name) = true) :
    (mutateFirst name f ds).find? (fun x => x.name == name) = some (f d) := by
  induction ds with
  | nil => simp [List.find?] at h
  | cons d0 rest ih =>
    by_cases h0 : (d0.name == name) = true
    · rw [find?_name_cons_pos name d0 rest h0] at h
      injection h with h
      subst h
      rw [mutateFirst_cons_pos name _ d0 rest h0]
      exact find?_name_cons_pos name (f d0) rest hf
    · rw [find?_name_cons_neg name d0 rest h0] at h
      rw [mutateFirst_cons_neg name _ d0 rest h0,
        find?_name_cons_neg name d0 _ h0]
      exact ih h

theorem find?_isSome_of_names (ds : List Deployment) (n : String)
    (h : n ∈ ds.map Deployment.name) :
    ∃ d, ds.find? (fun x => x.name == n) = some d := by
  induction ds with
  | nil => simp at h
  | cons d rest ih =>
    by_cases h0 : (d.name == n) = true
    · exact ⟨d, find?_name_cons_pos n d rest h0⟩
    · have hmem : n ∈ rest.map Deployment.name := by
        simp only [List.map_cons, List.mem_cons] at h
        rcases h with h | h
        · exact absurd (by simp [h]) h0
        · exact h
      obtain ⟨dd, hdd⟩ := ih hmem
      exact ⟨dd, by rw [find?_name_cons_neg n d rest h0]; exact hdd⟩

theorem names_stopA (e : Engine) (n : String) (fh : Bool) (ds : List Deployment) :
    (stopA e n fh ds).2.map Deployment.name = ds.map Deployment.name := by
  rw [stopA_eq]
  cases hf : ds.find? (fun x => x.name == n) with
  | none => rfl
  | some d =>
    have hm := mutateFirst_names n (fun x => { x with state := MState.Stopped })
      (fun x _ => rfl) ds
    cases hs : (stop_running_container e d.id).1 <;> cases fh <;> simp [hs, hm]

theorem names_removeA (e : Engine) (n : String) (fh : Bool) (ds : List Deployment) :
    (removeA e n fh ds).2.map Deployment.name = ds.map Deployment.name := by
  rw [removeA_eq]
  cases hf : ds.find? (fun x => x.name == n) with
  | none => rfl
  | some d =>
    have hpres : ∀ x : Deployment, (x.name == n) = true →
        Deployment.name
          { id := "", name := n, state := MState.Stopped, image := "", health := "" }
          = x.name := by
      intro x hx
      have hxn : x.name = n := by simpa using hx
      simp [hxn]
    have hm := mutateFirst_names n
      (fun _ =>
        { id := "", name := n, state := MState.Stopped, image := "", health := "" })
      hpres ds
    cases hs : (remove_stopped_container e d.id).1 <;> cases fh <;> simp [hs, hm]

theorem fillSlots_nil (slots : List (Option Deployment)) : fillSlots [] slots = [] := rfl

theorem fillSlots_cons (d : DesiredDeployment) (ds : List DesiredDeployment)
    (s : Option Deployment) (ss : List (Option Deployment)) :
    fillSlots (d :: ds) (s :: ss) =
      s.getD (emptyDeployment d.name) :: fillSlots ds ss := rfl

theorem buildSlots_names (e : Engine) (pfx : String) :
    ∀ (ds : List DesiredDeployment) (pcs : List (RunningContainer × List String))
      (slots : List (Option Deployment)),
      buildSlots e pfx ds pcs = .ok slots →
      (fillSlots ds slots).map Deployment.name = ds.map DesiredDeployment.name := by
  intro ds
  induction ds with
  | nil =>
    intro pcs slots h
    simp only [buildSlots] at h
    injection h with h
    subst h
    rfl
  | cons d rest ih =>
    intro pcs slots h
    simp only [buildSlots] at h
    cases hfc : findConsume (pfx ++ d.name) pcs with
    | none =>
      rw [hfc] at h
      cases hb : buildSlots e pfx rest pcs with
      | error u => rw [hb] at h; cases h
      | ok slots2 =>
        rw [hb] at h
        injection h with h
        subst h
        rw [fillSlots_cons]
        simp [emptyDeployment, ih pcs slots2 hb]
    | some p =>
      obtain ⟨q, pcs2⟩ := p
      rw [hfc] at h
      dsimp only at h
      cases hi : (inspectRC e q.1.id).1 with
      | error u => rw [hi] at h; cases h
      | ok insp =>
        rw [hi] at h
        cases hb : buildSlots e pfx rest pcs2 with
        | error u => rw [hb] at h; cases h
        | ok slots2 =>
          rw [hb] at h
          injection h with h
          subst h
          rw [fillSlots_cons]
          simp [ih pcs2 slots2 hb]

theorem names_new (e : Engine) (c : Config) (t : List Deployment)
    (h : Manager.new e c = .ok t) :
    t.map Deployment.name = c.deployments.map DesiredDeployment.name := by
  simp only [Manager.new] at h
  cases hc : e.containers with
  | error u => rw [hc] at h; cases h
  | ok rcs =>
    rw [hc] at h
    dsimp only at h
    cases hb : buildSlots e c.container_pfx c.deployments
        (prefixedContainers c.container_pfx rcs) with
    | error u => rw [hb] at h; cases h
    | ok slots =>
      rw [hb] at h
      dsimp only at h
      injection h with h
      subst h
      exact buildSlots_names e c.container_pfx c.deployments _ slots hb

theorem names_incremental (e : Engine) (ds : List Deployment) :
    (incrementalPass e ds).map Deployment.name = ds.map Deployment.name := by
  simp only [incrementalPass, List.map_map]
  congr 1
  funext d
  cases hi : (inspectRC e d.id).1 <;> simp [hi]

theorem update_err_table (e : Engine) (c : Config) (ds : List Deployment) (u : Unit)
    (h : (update_deployments e c ds).1 = .error u) :
    (update_deployments e c ds).2 = incrementalPass e ds := by
  simp only [update_deployments] at *
  cases hm : Manager.new e c with
  | error v => simp [hm]
  | ok full => rw [hm] at h; cases h

theorem update_ok_table (e : Engine) (c : Config) (ds t : List Deployment)
    (h : update_deployments e c ds = (.ok (), t)) :
    Manager.new e c = .ok t := by
  simp only [update_deployments] at h
  cases hm : Manager.new e c with
  | error v => rw [hm] at h; cases h
  | ok full =>
    rw [hm] at h
    injection h with h1 h2
    subst h2
    rfl

theorem names_update (e : Engine) (c : Config) (ds : List Deployment) :
    (update_deployments e c ds).2.map Deployment.name = ds.map Deployment.name ∨
    (update_deployments e c ds).2.map Deployment.name =
      c.deployments.map DesiredDeployment.name := by
  simp only [update_deployments]
  cases hm : Manager.new e c with
  | error v => left; simp [names_incremental]
  | ok full => right; simpa using names_new e c full hm

theorem stopA_err_status (e : Engine) (n : String) (fh : Bool) (ds : List Deployment)
    (s : Nat) (h : (stopA e n fh ds).1 = .error s) : s = 404 ∨ s = 500 := by
  rw [stopA_eq] at h
  cases hf : ds.find? (fun x => x.name == n) with
  | none => rw [hf] at h; injection h with h; exact Or.inl h.symm
  | some d =>
    rw [hf] at h
    dsimp only at h
    cases hs : (stop_running_container e d.id).1 <;> cases fh <;>
      rw [hs] at h <;> dsimp only at h <;> first
      | (injection h with h; exact Or.inr h.symm)
      | cases h

theorem removeA_err_status (e : Engine) (n : String) (fh : Bool) (ds : List Deployment)
    (s : Nat) (h : (removeA e n fh ds).1 = .error s) : s = 404 ∨ s = 500 := by
  rw [removeA_eq] at h
  cases hf : ds.find? (fun x => x.name == n) with
  | none => rw [hf] at h; injection h with h; exact Or.inl h.symm
  | some d =>
    rw [hf] at h
    dsimp only at h
    cases hs : (remove_stopped_container e d.id).1 <;> cases fh <;>
      rw [hs] at h <;> dsimp only at h <;> first
      | (injection h with h; exact Or.inr h.symm)
      | cases h

theorem stopA_lenient_err (e : Engine) (n : String) (ds : List Deployment)
    (s : Nat) (h : (stopA e n false ds).1 = .error s) :
    s = 404 ∧ ds.find? (fun x => x.name == n) = none ∧ (stopA e n false ds).2 = ds := by
  rw [stopA_eq] at h ⊢
  cases hf : ds.find? (fun x => x.name == n) with
  | none =>
    rw [hf] at h
    injection h with h
    exact ⟨h.symm, rfl, rfl⟩
  | some d =>
    rw [hf] at h
    dsimp only at h
    cases hs : (stop_running_container e d.id).1 <;> rw [hs] at h <;>
      dsimp only at h <;> cases h

theorem removeA_lenient_err (e : Engine) (n : String) (ds : List Deployment)
    (s : Nat) (h : (removeA e n false ds).1 = .error s) :
    s = 404 ∧ ds.find? (fun x => x.name == n) = none ∧ (removeA e n false ds).2 = ds := by
  rw [removeA_eq] at h ⊢
  cases hf : ds.find? (fun x => x.name == n) with
  | none =>
    rw [hf] at h
    injection h with h
    exact ⟨h.symm, rfl, rfl⟩
  | some d =>
    rw [hf] at h
    dsimp only at h
    cases hs : (remove_stopped_container e d.id).1 <;> rw [hs] at h <;>
      dsimp only at h <;> cases h

theorem mem_names_of_find?_cfg (c : Config) (n : String) (dc : DesiredDeployment)
    (h : c.deployments.find? (fun d => d.name == n) = some dc) :
    n ∈ c.deployments.map DesiredDeployment.name := by
  have h1 : dc.name = n := by simpa using List.find?_some h
  have h2 : dc ∈ c.deployments := List.mem_of_find?_eq_some h
  exact List.mem_map.mpr ⟨dc, h2, h1⟩

theorem names_start_container (e : Engine) (c : Config) (n : String)
    (ds : List Deployment)
    (hds : ds.map Deployment.name = c.deployments.map DesiredDeployment.name) :
    (start_container e c n ds).2.map Deployment.name =
      c.deployments.map DesiredDeployment.name := by
  simp only [start_container]
  cases h1 : stopA e n false ds with
  | mk r1 ds1 =>
  have hn1 : ds1.map Deployment.name = c.deployments.map DesiredDeployment.name := by
    have hx := names_stopA e n false ds
    rw [h1] at hx
    rw [hx, hds]
  cases r1 with
  | error s => exact hn1
  | ok u =>
  dsimp only
  cases h2 : removeA e n false ds1 with
  | mk r2 ds2 =>
  have hn2 : ds2.map Deployment.name = c.deployments.map DesiredDeployment.name := by
    have hx := names_removeA e n false ds1
    rw [h2] at hx
    rw [hx, hn1]
  cases r2 with
  | error s => exact hn2
  | ok u2 =>
  dsimp only
  cases hc : c.deployments.find? (fun d => d.name == n) with
  | none => exact hn2
  | some dc =>
  dsimp only
  cases hl : e.launch (trimStartSlash c.container_pfx ++ n)
      (trimStartSlash c.container_pfx ++ n ++ ":latest")
      (match dc.args with | some a => a | none => []) with
  | error u3 => exact hn2
  | ok u3 =>
  dsimp only
  cases h3 : update_deployments e c ds2 with
  | mk r3 ds3 =>
  have hn3 : ds3.map Deployment.name = c.deployments.map DesiredDeployment.name := by
    have hx := names_update e c ds2
    rw [h3] at hx
    rcases hx with hx | hx
    · rw [hx, hn2]
    · exact hx
  cases r3 with
  | error u4 => exact hn3
  | ok u4 =>
  dsimp only
  cases hf : ds3.find? (fun d => d.name == n) with
  | none => exact hn3
  | some d =>
  dsimp only
  by_cases hr : d.state = MState.Running
  · rw [if_pos hr]
    exact hn3
  · rw [if_neg hr]
    exact hn3

theorem start_container_shape (e : Engine) (c : Config) (n : String)
    (ds : List Deployment) :
    ((start_container e c n ds).1 ≠ HRes.panicked)
    ∧ (∀ s, (start_container e c n ds).1 = .err s → s = 404 ∨ s = 500)
    ∧ (∀ s v, (start_container e c n ds).1 = .ok s v → s = 200) := by
  simp only [start_container]
  cases h1 : stopA e n false ds with
  | mk r1 ds1 =>
  cases r1 with
  | error s1 =>
    refine ⟨by simp, ?_, by simp⟩
    intro s hs
    injection hs with hs
    subst hs
    exact stopA_err_status e n false ds s1 (by rw [h1])
  | ok u =>
  dsimp only
  cases h2 : removeA e n false ds1 with
  | mk r2 ds2 =>
  cases r2 with
  | error s2 =>
    refine ⟨by simp, ?_, by simp⟩
    intro s hs
    injection hs with hs
    subst hs
    exact removeA_err_status e n false ds1 s2 (by rw [h2])
  | ok u2 =>
  dsimp only
  cases hc : c.deployments.find? (fun d => d.name == n) with
  | none => exact ⟨by simp, fun s hs => by injection hs with hs; exact Or.inl hs.symm,
      by simp⟩
  | some dc =>
  dsimp only
  cases hl : e.launch (trimStartSlash c.container_pfx ++ n)
      (trimStartSlash c.container_pfx ++ n ++ ":latest")
      (match dc.args with | some a => a | none => []) with
  | error u3 => exact ⟨by simp, fun s hs => by injection hs with hs; exact Or.inr hs.symm,
      by simp⟩
  | ok u3 =>
  dsimp only
  cases h3 : update_deployments e c ds2 with
  | mk r3 ds3 =>
  cases r3 with
  | error u4 => exact ⟨by simp, fun s hs => by injection hs with hs; exact Or.inr hs.symm,
      by simp⟩
  | ok u4 =>
  dsimp only
  have hn3 : ds3.map Deployment.name = c.deployments.map DesiredDeployment.name := by
    have hu : update_deployments e c ds2 = (.ok (), ds3) := by
      rw [h3]
    exact names_new e c ds3 (update_ok_table e c ds2 ds3 hu)
  have hmem : n ∈ ds3.map Deployment.name := by
    rw [hn3]
    exact mem_names_of_find?_cfg c n dc hc
  obtain ⟨d, hd⟩ := find?_isSome_of_names ds3 n hmem
  rw [hd]
  dsimp only
  by_cases hr : d.state = MState.Running
  · rw [if_pos hr]
    exact ⟨by simp, by simp, fun s v hs => by injection hs with hs; exact hs.symm⟩
  · rw [if_neg hr]
    exact ⟨by simp, fun s hs => by injection hs with hs; exact Or.inr hs.symm, by simp⟩

/-- Helper: a list stands in `Forall₂ R` with its own map when `R` relates
every element to its image. -/
theorem forall2_self_map {α β : Type} (R : α → β → Prop) (g : α → β)
    (l : List α) (h : ∀ a ∈ l, R a (g a)) : List.Forall₂ R l (l.map g) := by
  induction l with
  | nil => simp
  | cons a rest ih =>
    simp only [List.map_cons]
    exact List.Forall₂.cons (h a (by simp)) (ih (fun b hb => h b (by simp [hb])))

/-! Concrete configurations, engines and tables used to instantiate the
claim theorems. -/

/-- A one-deployment configuration (name "web", default name marker). -/
def cfgW : Config :=
  { container_pfx := "/ed_", deployments := [{ name := "web", args := none }] }

/-- An engine whose calls all succeed and whose inventory is empty. -/
def engBase : Engine :=
  { containers := .ok []
    inspectStatus := fun _ => .ok 200
    inspectBody := fun _ => { state := { health := none, running := false } }
    loadResp := fun _ => .ok "Loaded image: a:1"
    tagStatus := fun _ _ _ => .ok 201
    pruneResp := .ok 200
    stopStatus := fun _ => .ok 204
    removeStatus := fun _ => .ok 204
    launch := fun _ _ _ => .ok ()
    startById := fun _ => .ok () }

/-- An engine with one running, healthy container named for "web". -/
def engRunning : Engine :=
  { engBase with
    containers := .ok [{ id := "cid", names := ["/ed_web"], image := "img",
                         state := "running" }]
    inspectBody := fun _ =>
      { state := { health := some { status := "healthy" }, running := true } } }

/-- An engine on which every container inspect fails. -/
def engStopFail : Engine := { engBase with inspectStatus := fun _ => .error () }

/-- An engine that is fully down: listing and inspecting both fail. -/
def engDown : Engine :=
  { engBase with containers := .error (), inspectStatus := fun _ => .error () }

/-- An engine whose load response stream carries two loaded-image lines. -/
def engTwoLoaded : Engine :=
  { engBase with loadResp := fun _ => .ok "Loaded image: a:1\nLoaded image: b:2" }

/-- An engine whose load response stream carries no loaded-image line. -/
def engNoLine : Engine := { engBase with loadResp := fun _ => .ok "no marker here" }

/-- An engine on which the dangling-image prune transport fails. -/
def engPruneFail : Engine := { engBase with pruneResp := .error () }

/-- An engine that answers not-found exactly for the empty container id. -/
def engEmptyNF : Engine :=
  { engBase with inspectStatus := fun id => if id = "" then .error () else .ok 200 }

/-- A table with one running "web" deployment backed by container "abc". -/
def tWebRunning : List Deployment :=
  [{ id := "abc", name := "web", state := .Running, image := "img", health := "healthy" }]

/-! Claim C5. -/

/-- C5 counterexample: with strict mode set and a failing engine stop call,
`stop` returns the error before the state mutation, so the deployment stays
`Running` — the state is not set to `Stopped` independently of the strict
flag, refuting the claim as stated. -/
theorem c5_counterexample :
    stopA engStopFail "web" true tWebRunning = (.error 500, tWebRunning)
    ∧ tWebRunning.map Deployment.state = [MState.Running] := by decide

/-- C5 (amended): once `stop` finds the deployment, the in-memory state is
set to `Stopped` on engine-stop success and on tolerated (lenient) failure;
but in strict mode a failing engine stop returns the 500 error before the
mutation, leaving the whole table unchanged. -/
theorem c5_stop_state_mutation (e : Engine) (n : String) (ds : List Deployment)
    (d : Deployment) (hfind : ds.find? (fun x => x.name == n) = some d) :
    (stopA e n false ds).1 = .ok ()
    ∧ (stopA e n false ds).2.find? (fun x => x.name == n) =
        some { d with state := MState.Stopped }
    ∧ ((stop_running_container e d.id).1 = .ok () →
        stopA e n true ds = stopA e n false ds)
    ∧ ((stop_running_container e d.id).1 = .error () →
        stopA e n true ds = (.error 500, ds)) := by
  have hdn : (d.name == n) = true := by simpa using List.find?_some hfind
  refine ⟨?_, ?_, ?_, ?_⟩
  · rw [stopA_eq, hfind]
    dsimp only
    cases hs : (stop_running_container e d.id).1 <;> simp [hs]
  · rw [stopA_eq, hfind]
    dsimp only
    cases hs : (stop_running_container e d.id).1 <;>
      exact find?_mutateFirst n _ ds d hfind hdn
  · intro hs
    rw [stopA_eq, stopA_eq, hfind]
    dsimp only
    rw [hs]
  · intro hs
    rw [stopA_eq, hfind]
    dsimp only
    rw [hs]

/-- C5 witness: the lenient stop attempt succeeds at a concrete input even
though the engine stop call fails. -/
theorem c5_witness : (stopA engStopFail "web" false tWebRunning).1 = .ok () :=
  (c5_stop_state_mutation engStopFail "web" tWebRunning
    { id := "abc", name := "web", state := .Running, image := "img", health := "healthy" }
    (by decide)).1

/-! Claim C6. -/

/-- C6 counterexample: after a successful `remove`, the record health field
is the empty string (the `Default` for String), not the "unknown" sentinel
the claim states. -/
theorem c6_counterexample :
    removeA engBase "web" true tWebRunning =
      (.ok (), [{ id := "", name := "web", state := MState.Stopped,
                  image := "", health := "" }])
    ∧ ("" : String) ≠ "unknown" := by decide

/-- C6 (amended): after `remove` succeeds or tolerates a failure in lenient
mode, the deployment record keeps the name and has empty id, empty image,
state `Stopped`, and health equal to the empty string (the String default
produced by the `Deployment::default()` reset), not "unknown". -/
theorem c6_remove_resets_record (e : Engine) (n : String) (fh : Bool)
    (ds : List Deployment) (d : Deployment)
    (hfind : ds.find? (fun x => x.name == n) = some d)
    (hok : (removeA e n fh ds).1 = .ok ()) :
    (removeA e n fh ds).2.find? (fun x => x.name == n) =
      some { id := "", name := n, state := MState.Stopped, image := "", health := "" } := by
  have hnn : ((Deployment.name
      { id := "", name := n, state := MState.Stopped, image := "", health := "" }
      : String) == n) = true := by simp
  rw [removeA_eq] at hok ⊢
  rw [hfind] at hok ⊢
  dsimp only at hok ⊢
  cases hs : (remove_stopped_container e d.id).1 with
  | error u =>
    cases fh with
    | true =>
      rw [hs] at hok
      dsimp only at hok
      exact Except.noConfusion hok
    | false => exact find?_mutateFirst n _ ds d hfind hnn
  | ok u =>
    cases fh <;> exact find?_mutateFirst n _ ds d hfind hnn

/-- C6 witness: the amended record shape at a concrete input. -/
theorem c6_witness :
    (removeA engBase "web" true tWebRunning).2.find? (fun x => x.name == "web") =
      some { id := "", name := "web", state := MState.Stopped, image := "", health := "" } :=
  c6_remove_resets_record engBase "web" true tWebRunning
    { id := "abc", name := "web", state := .Running, image := "img", health := "healthy" }
    (by decide) (by decide)

/-! Claim C7. -/

/-- C7 counterexample: the image was tagged successfully (201), yet a prune
transport failure makes `load_container_image` return an error — the prune
outcome is not fully best-effort. -/
theorem c7_counterexample :
    engPruneFail.tagStatus "a:1" "latest" "x" = .ok 201
    ∧ (load_container_image engPruneFail "f" "x:latest").1 = .error () := by decide

/-- C7 (amended): after a successful tag, the prune response status is
ignored (any status yields success), but a transport-level failure of the
prune request is propagated as a failure of the whole load. -/
theorem c7_prune_semantics (e : Engine) (fn nn s img repo tg : String)
    (hload : e.loadResp fn = .ok s)
    (himg : lastLoadedImage s = some img)
    (hsplit : (splitOnChar (Char.ofNat 58) nn.toList).map String.mk = [repo, tg])
    (htag : e.tagStatus img tg repo = .ok 201) :
    (∀ ps : Nat, e.pruneResp = .ok ps → (load_container_image e fn nn).1 = .ok ())
    ∧ (e.pruneResp = .error () → (load_container_image e fn nn).1 = .error ()) := by
  constructor
  · intro ps hp
    simp only [load_container_image]
    rw [hload]
    dsimp only
    rw [himg]
    dsimp only
    rw [hsplit]
    dsimp only
    rw [htag]
    dsimp only
    simp [hp]
  · intro hp
    simp only [load_container_image]
    rw [hload]
    dsimp only
    rw [himg]
    dsimp only
    rw [hsplit]
    dsimp only
    rw [htag]
    dsimp only
    simp [hp]

/-- C7 witness: a concrete successful load where the prune status would not
matter. -/
theorem c7_witness : (load_container_image engBase "f" "x:latest").1 = .ok () :=
  (c7_prune_semantics engBase "f" "x:latest" "Loaded image: a:1" "a:1" "x" "latest"
    (by decide) (by decide) (by decide) (by decide)).1 200 (by decide)

/-! Claim C2. -/

/-- C2 counterexample: at a concrete input the refresh fails (the engine is
down), and the table has been mutated by the incremental pass, so it is not
left at its last known-good value. -/
theorem c2_counterexample :
    (update_deployments engDown cfgW tWebRunning).1 = .error ()
    ∧ (update_deployments engDown cfgW tWebRunning).2 ≠ tWebRunning := by decide

/-- C2 (amended): when the refresh fails, the error is returned and the
table keeps its length and name list; but each entry may already have been
mutated by the incremental pass — either only its health was refreshed, or
(when its container could no longer be inspected) its id and image were
cleared and its state set to Stopped with the health kept. -/
theorem c2_failed_refresh_table (e : Engine) (c : Config) (ds : List Deployment)
    (u : Unit) (h : (update_deployments e c ds).1 = .error u) :
    (update_deployments e c ds).2.map Deployment.name = ds.map Deployment.name
    ∧ List.Forall₂ (fun old new =>
        new = { old with health := new.health } ∨
        new = { old with id := "", state := MState.Stopped, image := "" })
        ds (update_deployments e c ds).2 := by
  rw [update_err_table e c ds u h]
  refine ⟨names_incremental e ds, ?_⟩
  simp only [incrementalPass]
  apply forall2_self_map
  intro d hd
  cases hi : (inspectRC e d.id).1 with
  | ok i => left; simp [hi]
  | error u2 => right; simp [hi]

/-- C2 witness: the name list survives a concrete failed refresh. -/
theorem c2_witness :
    (update_deployments engDown cfgW tWebRunning).2.map Deployment.name =
      tWebRunning.map Deployment.name :=
  (c2_failed_refresh_table engDown cfgW tWebRunning () (by decide)).1

/-! Claim C3. -/

/-- C3 counterexample: a load response with two loaded-image lines does not
fail; the call succeeds and tags the image named by the last line. -/
theorem c3_counterexample :
    load_container_image engTwoLoaded "f" "x:latest" =
      (.ok (), [Req.load "f", Req.tag "b:2" "latest" "x", Req.prune]) := by decide

/-- C3 (amended): `load_container_image` fails when the load response stream
has no "Loaded image:" line, and then no tag or prune request is issued; a
stream with more than one such line does not fail — any tag request issued
tags the image named by the last such line. -/
theorem c3_load_line_extraction (e : Engine) (fn nn s : String)
    (hload : e.loadResp fn = .ok s) :
    (lastLoadedImage s = none →
       load_container_image e fn nn = (.error (), [Req.load fn]))
    ∧ (∀ i t r, Req.tag i t r ∈ (load_container_image e fn nn).2 →
        lastLoadedImage s = some i) := by
  constructor
  · intro hnone
    simp only [load_container_image]
    rw [hload]
    dsimp only
    rw [hnone]
  · intro i t r hmem
    simp only [load_container_image] at hmem
    rw [hload] at hmem
    dsimp only at hmem
    cases hli : lastLoadedImage s with
    | none =>
      rw [hli] at hmem
      dsimp only at hmem
      simp at hmem
    | some img =>
      rw [hli] at hmem
      dsimp only at hmem
      cases hsp : (splitOnChar (Char.ofNat 58) nn.toList).map String.mk with
      | nil =>
        rw [hsp] at hmem
        dsimp only at hmem
        simp at hmem
      | cons a rest =>
        cases rest with
        | nil =>
          rw [hsp] at hmem
          dsimp only at hmem
          simp at hmem
        | cons b rest2 =>
          cases rest2 with
          | cons cc rest3 =>
            rw [hsp] at hmem
            dsimp only at hmem
            simp at hmem
          | nil =>
            rw [hsp] at hmem
            dsimp only at hmem
            cases ht : e.tagStatus img b a with
            | error u =>
              rw [ht] at hmem
              dsimp only at hmem
              simp only [List.mem_cons, List.not_mem_nil, or_false] at hmem
              rcases hmem with hmem | hmem
              · cases hmem
              · injection hmem with h1 h2 h3
                rw [h1]
            | ok st =>
              rw [ht] at hmem
              dsimp only at hmem
              by_cases h201 : st = 201
              · rw [if_neg (by simp [h201])] at hmem
                cases hp : e.pruneResp with
                | error u =>
                  rw [hp] at hmem
                  dsimp only at hmem
                  simp only [List.mem_cons, List.not_mem_nil, or_false] at hmem
                  rcases hmem with hmem | hmem | hmem
                  · cases hmem
                  · injection hmem with h1 h2 h3
                    rw [h1]
                  · cases hmem
                | ok ps =>
                  rw [hp] at hmem
                  dsimp only at hmem
                  simp only [List.mem_cons, List.not_mem_nil, or_false] at hmem
                  rcases hmem with hmem | hmem | hmem
                  · cases hmem
                  · injection hmem with h1 h2 h3
                    rw [h1]
                  · cases hmem
              · rw [if_pos (by simp [h201])] at hmem
                simp only [List.mem_cons, List.not_mem_nil, or_false] at hmem
                rcases hmem with hmem | hmem
                · cases hmem
                · injection hmem with h1 h2 h3
                  rw [h1]

/-- C3 witness: a concrete load response with no loaded-image line fails,
with no tag and no prune request issued. -/
theorem c3_witness :
    load_container_image engNoLine "f" "x:latest" = (.error (), [Req.load "f"]) :=
  (c3_load_line_extraction engNoLine "f" "x:latest" "no marker here"
    (by decide)).1 (by decide)

/-! Claim C8. -/

/-- C8: `stop_running_container` inspects first; when the engine reports the
container not running it succeeds with no stop request; otherwise it issues
exactly one stop request carrying the bounded-grace body, and succeeds
precisely when the engine answers 204 (no content) or 304 (not modified). -/
theorem c8_stop_protocol (e : Engine) (id : String) (insp : InspectContainer)
    (hins : (inspectRC e id).1 = .ok insp) :
    (insp.state.running = false →
       stop_running_container e id = (.ok (), [Req.inspect id]))
    ∧ (insp.state.running = true →
       (stop_running_container e id).2 = [Req.inspect id, Req.stopReq id stopBody]
       ∧ ((stop_running_container e id).1 = .ok () ↔
           e.stopStatus id = .ok 204 ∨ e.stopStatus id = .ok 304)) := by
  constructor
  · intro hrun
    simp only [stop_running_container]
    rw [hins]
    dsimp only
    rw [hrun]
    simp
  · intro hrun
    simp only [stop_running_container]
    rw [hins]
    dsimp only
    rw [hrun, if_neg (by simp : ¬(true = false))]
    constructor
    · cases hs : e.stopStatus id with
      | error u => simp
      | ok st =>
        dsimp only
        by_cases h1 : st = 204 <;> by_cases h2 : st = 304 <;>
          simp [h1, h2]
    · cases hs : e.stopStatus id with
      | error u =>
        simp
      | ok st =>
        dsimp only
        by_cases h1 : st = 204 <;> by_cases h2 : st = 304 <;>
          simp [h1, h2]

/-- C8 witness: the protocol at a concrete running container. -/
theorem c8_witness :
    (stop_running_container engRunning "cid").2 =
      [Req.inspect "cid", Req.stopReq "cid" stopBody]
    ∧ ((stop_running_container engRunning "cid").1 = .ok () ↔
        engRunning.stopStatus "cid" = .ok 204 ∨ engRunning.stopStatus "cid" = .ok 304) :=
  (c8_stop_protocol engRunning "cid"
    { state := { health := some { status := "healthy" }, running := true } }
    (by decide)).2 (by decide)

/-! Claim C10. -/

/-- C10: after a successful refresh finds the deployment with an empty
container id, and the inspect of the empty id fails with not-found, the
strict public stop endpoint returns an internal failure (500) — it is not
idempotent for deployments with no backing container — while the lenient
internal stop on the same table succeeds. -/
theorem c10_strict_stop_empty_id (e : Engine) (c : Config) (n : String)
    (ds t : List Deployment) (d : Deployment)
    (hupd : update_deployments e c ds = (.ok (), t))
    (hfind : t.find? (fun x => x.name == n) = some d)
    (hid : d.id = "")
    (hins : (inspectRC e "").1 = .error ()) :
    stop_deployment e c n ds = (.err 500, t)
    ∧ (stopA e n false t).1 = .ok () := by
  have hstop : (stop_running_container e d.id).1 = .error () := by
    rw [hid]
    simp only [stop_running_container]
    rw [hins]
  have hsA : stopA e n true t = (.error 500, t) := by
    rw [stopA_eq, hfind]
    dsimp only
    rw [hstop]
  refine ⟨?_, ?_⟩
  · simp only [stop_deployment]
    rw [hupd]
    dsimp only
    rw [hsA]
  · rw [stopA_eq, hfind]
    dsimp only
    rw [hstop]

/-- C10 witness: the concrete strict stop of a deployment with no backing
container returns 500. -/
theorem c10_witness :
    stop_deployment engEmptyNF cfgW "web" [] = (.err 500, [emptyDeployment "web"]) :=
  (c10_strict_stop_empty_id engEmptyNF cfgW "web" [] [emptyDeployment "web"]
    (emptyDeployment "web") (by decide) (by decide) (by decide) (by decide)).1

/-! Claim C9. -/

/-- C9: once the lenient teardown completed, the name is configured and the
launch invocation reports success, `start_container` refreshes and then:
a refresh failure or a resulting state other than `Running` yields an
internal failure (500), while a `Running` state yields outcome success with
the deployment's current state and health. -/
theorem c9_start_verifies_running (e : Engine) (c : Config) (n : String)
    (ds ds1 ds2 : List Deployment) (dc : DesiredDeployment)
    (h1 : stopA e n false ds = (.ok (), ds1))
    (h2 : removeA e n false ds1 = (.ok (), ds2))
    (hcfg : c.deployments.find? (fun d => d.name == n) = some dc)
    (hlaunch : e.launch (trimStartSlash c.container_pfx ++ n)
        (trimStartSlash c.container_pfx ++ n ++ ":latest")
        (match dc.args with | some a => a | none => []) = .ok ()) :
    ((update_deployments e c ds2).1 = .error () →
       (start_container e c n ds).1 = .err 500)
    ∧ (∀ t, update_deployments e c ds2 = (.ok (), t) →
        ∃ d, t.find? (fun x => x.name == n) = some d ∧
          (d.state = MState.Running →
             start_container e c n ds =
               (.ok 200 { outcome := "success", state := d.state.to_string,
                          health := d.health }, t))
          ∧ (d.state ≠ MState.Running →
             start_container e c n ds = (.err 500, t))) := by
  constructor
  · intro herr
    simp only [start_container]
    rw [h1]
    dsimp only
    rw [h2]
    dsimp only
    rw [hcfg]
    dsimp only
    rw [hlaunch]
    dsimp only
    cases hu : update_deployments e c ds2 with
    | mk r3 ds3 =>
      rw [hu] at herr
      dsimp only at herr
      subst herr
      rfl
  · intro t hu
    have hnames : t.map Deployment.name = c.deployments.map DesiredDeployment.name :=
      names_new e c t (update_ok_table e c ds2 t hu)
    have hmem : n ∈ t.map Deployment.name := by
      rw [hnames]
      exact mem_names_of_find?_cfg c n dc hcfg
    obtain ⟨d, hd⟩ := find?_isSome_of_names t n hmem
    refine ⟨d, hd, ?_, ?_⟩
    · intro hr
      simp only [start_container]
      rw [h1]
      dsimp only
      rw [h2]
      dsimp only
      rw [hcfg]
      dsimp only
      rw [hlaunch]
      dsimp only
      rw [hu]
      dsimp only
      rw [hd]
      dsimp only
      rw [if_pos hr]
    · intro hr
      simp only [start_container]
      rw [h1]
      dsimp only
      rw [h2]
      dsimp only
      rw [hcfg]
      dsimp only
      rw [hlaunch]
      dsimp only
      rw [hu]
      dsimp only
      rw [hd]
      dsimp only
      rw [if_neg hr]

/-- The deployment record the reconciliation derives from `engRunning`. -/
def dRunWeb : Deployment :=
  { id := "cid", name := "web", state := .Running, image := "img", health := "healthy" }

/-- C9 witness: a concrete full start where the refreshed state is Running
and the call returns success with the current state and health. -/
theorem c9_witness :
    start_container engRunning cfgW "web" [emptyDeployment "web"] =
      (.ok 200 { outcome := "success", state := "running", health := "healthy" },
       [dRunWeb]) := by
  obtain ⟨d, hd, hrun, _⟩ :=
    (c9_start_verifies_running engRunning cfgW "web" [emptyDeployment "web"]
      [{ id := "", name := "web", state := .Stopped, image := "", health := "unknown" }]
      [{ id := "", name := "web", state := .Stopped, image := "", health := "" }]
      { name := "web", args := none }
      (by decide) (by decide) (by decide) (by decide)).2
      [dRunWeb] (by decide)
  have hdd : dRunWeb = d := by
    have h0 : ([dRunWeb] : List Deployment).find? (fun x => x.name == "web") =
        some dRunWeb := by decide
    rw [h0] at hd
    injection hd with hd
  subst hdd
  exact hrun (by decide)

/-! Claim C1. -/

/-- C1: the reconciliation build returns one entry per configured desired
deployment, in configuration order with the same names, for every engine
inventory; and stop, remove, refresh and start(orReplace) preserve the
length and name list of the table. -/
theorem c1_table_tracks_config (e : Engine) (c : Config) :
    (∀ t : List Deployment, Manager.new e c = .ok t →
       t.length = c.deployments.length ∧
       t.map Deployment.name = c.deployments.map DesiredDeployment.name)
    ∧ (∀ (n : String) (fh : Bool) (ds : List Deployment),
        (stopA e n fh ds).2.map Deployment.name = ds.map Deployment.name)
    ∧ (∀ (n : String) (fh : Bool) (ds : List Deployment),
        (removeA e n fh ds).2.map Deployment.name = ds.map Deployment.name)
    ∧ (∀ ds : List Deployment,
        ds.map Deployment.name = c.deployments.map DesiredDeployment.name →
        (update_deployments e c ds).2.map Deployment.name =
          c.deployments.map DesiredDeployment.name)
    ∧ (∀ (n : String) (ds : List Deployment),
        ds.map Deployment.name = c.deployments.map DesiredDeployment.name →
        (start_container e c n ds).2.map Deployment.name =
          c.deployments.map DesiredDeployment.name) := by
  refine ⟨?_, fun n fh ds => names_stopA e n fh ds,
    fun n fh ds => names_removeA e n fh ds, ?_,
    fun n ds hds => names_start_container e c n ds hds⟩
  · intro t ht
    have hn := names_new e c t ht
    have hl := congrArg List.length hn
    simp only [List.length_map] at hl
    exact ⟨hl, hn⟩
  · intro ds hds
    rcases names_update e c ds with hx | hx
    · rw [hx, hds]
    · exact hx

/-- C1 witness: a concrete build whose table has the config length and
names. -/
theorem c1_witness :
    ([emptyDeployment "web"] : List Deployment).length = cfgW.deployments.length ∧
    ([emptyDeployment "web"] : List Deployment).map Deployment.name =
      cfgW.deployments.map DesiredDeployment.name :=
  (c1_table_tracks_config engBase cfgW).1 [emptyDeployment "web"] (by decide)

/-! Handler-shape lemmas used by claim C4. -/

theorem stop_deployment_panic_iff (e : Engine) (c : Config) (n : String)
    (ds : List Deployment) :
    (stop_deployment e c n ds).1 = HRes.panicked ↔
      (update_deployments e c ds).1 = .error () := by
  cases hu : update_deployments e c ds with
  | mk r t =>
    cases r with
    | error u =>
      cases u
      constructor
      · intro _
        rfl
      · intro _
        simp only [stop_deployment]
        rw [hu]
    | ok u =>
      constructor
      · intro hx
        simp only [stop_deployment] at hx
        rw [hu] at hx
        dsimp only at hx
        cases hsA : stopA e n true t with
        | mk rs ts =>
          rw [hsA] at hx
          cases rs <;> dsimp only at hx <;> exact HRes.noConfusion hx
      · intro hx
        dsimp only at hx
        exact Except.noConfusion hx

theorem stop_deployment_err (e : Engine) (c : Config) (n : String)
    (ds : List Deployment) (s : Nat)
    (h : (stop_deployment e c n ds).1 = .err s) : s = 404 ∨ s = 500 := by
  simp only [stop_deployment] at h
  cases hu : update_deployments e c ds with
  | mk r t =>
    rw [hu] at h
    cases r with
    | error u => dsimp only at h; exact HRes.noConfusion h
    | ok u =>
      dsimp only at h
      cases hsA : stopA e n true t with
      | mk rs ts =>
        rw [hsA] at h
        cases rs with
        | error s2 =>
          dsimp only at h
          injection h with h1
          subst h1
          exact stopA_err_status e n true t s2 (by rw [hsA])
        | ok u2 => dsimp only at h; exact HRes.noConfusion h

theorem stop_deployment_ok (e : Engine) (c : Config) (n : String)
    (ds : List Deployment) (s : Nat) (v : String)
    (h : (stop_deployment e c n ds).1 = .ok s v) : s = 200 := by
  simp only [stop_deployment] at h
  cases hu : update_deployments e c ds with
  | mk r t =>
    rw [hu] at h
    cases r with
    | error u => dsimp only at h; exact HRes.noConfusion h
    | ok u =>
      dsimp only at h
      cases hsA : stopA e n true t with
      | mk rs ts =>
        rw [hsA] at h
        cases rs with
        | error s2 => dsimp only at h; exact HRes.noConfusion h
        | ok u2 =>
          dsimp only at h
          injection h with h1 h2
          exact h1.symm

theorem delete_deployment_panic_iff (e : Engine) (c : Config) (n : String)
    (ds : List Deployment) :
    (delete_deployment e c n ds).1 = HRes.panicked ↔
      (update_deployments e c ds).1 = .error () := by
  cases hu : update_deployments e c ds with
  | mk r t =>
    cases r with
    | error u =>
      cases u
      constructor
      · intro _
        rfl
      · intro _
        simp only [delete_deployment]
        rw [hu]
    | ok u =>
      constructor
      · intro hx
        simp only [delete_deployment] at hx
        rw [hu] at hx
        dsimp only at hx
        cases hsA : stopA e n false t with
        | mk rs ts =>
          rw [hsA] at hx
          cases rs with
          | error s2 => dsimp only at hx; exact HRes.noConfusion hx
          | ok u2 =>
            dsimp only at hx
            cases hrA : removeA e n false ts with
            | mk rr tr =>
              rw [hrA] at hx
              cases rr <;> dsimp only at hx <;> exact HRes.noConfusion hx
      · intro hx
        dsimp only at hx
        exact Except.noConfusion hx

theorem delete_deployment_err (e : Engine) (c : Config) (n : String)
    (ds : List Deployment) (s : Nat)
    (h : (delete_deployment e c n ds).1 = .err s) : s = 404 ∨ s = 500 := by
  simp only [delete_deployment] at h
  cases hu : update_deployments e c ds with
  | mk r t =>
    rw [hu] at h
    cases r with
    | error u => dsimp only at h; exact HRes.noConfusion h
    | ok u =>
      dsimp only at h
      cases hsA : stopA e n false t with
      | mk rs ts =>
        rw [hsA] at h
        cases rs with
        | error s2 =>
          dsimp only at h
          injection h with h1
          subst h1
          exact stopA_err_status e n false t s2 (by rw [hsA])
        | ok u2 =>
          dsimp only at h
          cases hrA : removeA e n false ts with
          | mk rr tr =>
            rw [hrA] at h
            cases rr with
            | error s3 =>
              dsimp only at h
              injection h with h1
              subst h1
              exact removeA_err_status e n false ts s3 (by rw [hrA])
            | ok u3 => dsimp only at h; exact HRes.noConfusion h

theorem delete_short_circuit (e : Engine) (c : Config) (n : String)
    (ds t1 : List Deployment) (s : Nat)
    (hu : update_deployments e c ds = (.ok (), t1))
    (hsA : (stopA e n false t1).1 = .error s) :
    delete_deployment e c n ds = (.err s, (stopA e n false t1).2) := by
  simp only [delete_deployment]
  rw [hu]
  dsimp only
  have hpair : stopA e n false t1 = (.error s, (stopA e n false t1).2) := by
    rw [← hsA]
  rw [hpair]

theorem start_deployment_panic_iff (e : Engine) (c : Config) (n : String)
    (ds : List Deployment) :
    (start_deployment e c n ds).1 = HRes.panicked ↔
      (update_deployments e c ds).1 = .error () := by
  cases hu : update_deployments e c ds with
  | mk r t =>
    cases r with
    | error u =>
      cases u
      constructor
      · intro _
        rfl
      · intro _
        simp only [start_deployment]
        rw [hu]
    | ok u =>
      constructor
      · intro hx
        simp only [start_deployment] at hx
        rw [hu] at hx
        dsimp only at hx
        cases hf : t.find? (fun d => d.name == n) with
        | none => rw [hf] at hx; dsimp only at hx; exact HRes.noConfusion hx
        | some d =>
          rw [hf] at hx
          dsimp only at hx
          by_cases hr : d.state = MState.Running
          · rw [if_pos hr] at hx
            exact HRes.noConfusion hx
          · rw [if_neg hr] at hx
            cases hst : e.startById d.id with
            | error u2 => rw [hst] at hx; dsimp only at hx; exact HRes.noConfusion hx
            | ok u2 => rw [hst] at hx; dsimp only at hx; exact HRes.noConfusion hx
      · intro hx
        dsimp only at hx
        exact Except.noConfusion hx

theorem start_deployment_err (e : Engine) (c : Config) (n : String)
    (ds : List Deployment) (s : Nat)
    (h : (start_deployment e c n ds).1 = .err s) : s = 404 ∨ s = 500 := by
  simp only [start_deployment] at h
  cases hu : update_deployments e c ds with
  | mk r t =>
    rw [hu] at h
    cases r with
    | error u => dsimp only at h; exact HRes.noConfusion h
    | ok u =>
      dsimp only at h
      cases hf : t.find? (fun d => d.name == n) with
      | none =>
        rw [hf] at h
        dsimp only at h
        injection h with h1
        exact Or.inl h1.symm
      | some d =>
        rw [hf] at h
        dsimp only at h
        by_cases hr : d.state = MState.Running
        · rw [if_pos hr] at h
          exact HRes.noConfusion h
        · rw [if_neg hr] at h
          cases hst : e.startById d.id with
          | error u2 =>
            rw [hst] at h
            dsimp only at h
            injection h with h1
            exact Or.inr h1.symm
          | ok u2 => rw [hst] at h; dsimp only at h; exact HRes.noConfusion h

theorem load_file_panic_iff (e : Engine) (c : Config) (n fn : String)
    (ds : List Deployment) :
    (load_file e c n fn ds).1 = HRes.panicked ↔
      (load_container_image e fn
        (trimStartSlash c.container_pfx ++ n ++ ":latest")).1 = .error () := by
  simp only [load_file]
  cases hl : (load_container_image e fn
      (trimStartSlash c.container_pfx ++ n ++ ":latest")).1 with
  | error u =>
    cases u
    dsimp only
    simp
  | ok u =>
    dsimp only
    constructor
    · intro hx
      exact absurd hx (start_container_shape e c n ds).1
    · intro hx
      exact Except.noConfusion hx

/-! Claim C4. -/

/-- C4 counterexample: with the engine down, the pre-operation refresh in
the public stop endpoint fails and the handler panics on its `.unwrap()`
instead of terminating with a mapped HTTP-style response. -/
theorem c4_counterexample :
    (stop_deployment engDown cfgW "web" tWebRunning).1 = HRes.panicked := by decide

/-- C4 (amended): list and get map refresh failures to 500 and a missing
name to 404 and never panic; stop, delete and start panic exactly when the
pre-operation refresh fails, and load panics exactly when the image load
fails, instead of mapping those errors; every non-panicking outcome carries
status 200, 404 or 500, the orchestrator itself never panics, and the first
error short-circuits the sequence (a failing stop step ends delete before
the remove step). -/
theorem c4_error_mapping (e : Engine) (c : Config) (n fn : String)
    (ds : List Deployment) :
    ((get_deployments e c ds).1 = .err 500 ∨
      ∃ v, (get_deployments e c ds).1 = .ok 200 v)
    ∧ ((get_deployment e c n ds).1 = .err 500 ∨
        (get_deployment e c n ds).1 = .err 404 ∨
        ∃ v, (get_deployment e c n ds).1 = .ok 200 v)
    ∧ ((stop_deployment e c n ds).1 = HRes.panicked ↔
        (update_deployments e c ds).1 = .error ())
    ∧ (∀ s, (stop_deployment e c n ds).1 = .err s → s = 404 ∨ s = 500)
    ∧ (∀ s v, (stop_deployment e c n ds).1 = .ok s v → s = 200)
    ∧ ((delete_deployment e c n ds).1 = HRes.panicked ↔
        (update_deployments e c ds).1 = .error ())
    ∧ (∀ s, (delete_deployment e c n ds).1 = .err s → s = 404 ∨ s = 500)
    ∧ (∀ t1 s, update_deployments e c ds = (.ok (), t1) →
        (stopA e n false t1).1 = .error s →
        delete_deployment e c n ds = (.err s, (stopA e n false t1).2))
    ∧ ((start_deployment e c n ds).1 = HRes.panicked ↔
        (update_deployments e c ds).1 = .error ())
    ∧ (∀ s, (start_deployment e c n ds).1 = .err s → s = 404 ∨ s = 500)
    ∧ ((start_container e c n ds).1 ≠ HRes.panicked
        ∧ (∀ s, (start_container e c n ds).1 = .err s → s = 404 ∨ s = 500)
        ∧ (∀ s v, (start_container e c n ds).1 = .ok s v → s = 200))
    ∧ ((load_file e c n fn ds).1 = HRes.panicked ↔
        (load_container_image e fn
          (trimStartSlash c.container_pfx ++ n ++ ":latest")).1 = .error ()) := by
  refine ⟨?_, ?_, stop_deployment_panic_iff e c n ds,
    fun s h => stop_deployment_err e c n ds s h,
    fun s v h => stop_deployment_ok e c n ds s v h,
    delete_deployment_panic_iff e c n ds,
    fun s h => delete_deployment_err e c n ds s h,
    fun t1 s hu hsA => delete_short_circuit e c n ds t1 s hu hsA,
    start_deployment_panic_iff e c n ds,
    fun s h => start_deployment_err e c n ds s h,
    start_container_shape e c n ds,
    load_file_panic_iff e c n fn ds⟩
  · cases hu : update_deployments e c ds with
    | mk r t =>
      cases r with
      | error u =>
        left
        simp only [get_deployments]
        rw [hu]
      | ok u =>
        right
        refine ⟨t.map (fun d =>
          { name := d.name, state := d.state.to_string,
            image := d.image, health := d.health }), ?_⟩
        simp only [get_deployments]
        rw [hu]
  · cases hu : update_deployments e c ds with
    | mk r t =>
      cases r with
      | error u =>
        left
        simp only [get_deployment]
        rw [hu]
      | ok u =>
        cases hf : t.find? (fun d => d.name == n) with
        | none =>
          right; left
          simp only [get_deployment]
          rw [hu]
          dsimp only
          rw [hf]
        | some d =>
          right; right
          refine ⟨{ name := d.name, state := d.state.to_string,
                    image := d.image, health := d.health }, ?_⟩
          simp only [get_deployment]
          rw [hu]
          dsimp only
          rw [hf]

/-- C4 witness: at a concrete input the first error (the missing name in the
stop step) short-circuits delete with a 404. -/
theorem c4_witness :
    delete_deployment engBase cfgW "nope" [] = (.err 404, [emptyDeployment "web"]) :=
  (c4_error_mapping engBase cfgW "nope" "f" []).2.2.2.2.2.2.2.1
    [emptyDeployment "web"] 404 (by decide) (by decide)

end Ed
